import Mathlib

/-!
Verification of the netlist-to-text emitter in `amaranth/back/unnamed.py`.

The emitter lowers netlist cells (operators, flip-flops, memories, …) into a
primitive instruction set.  This file embeds the lowering decisions of
`Emitter.emit`, the value renderer `Emitter.uvalue_str` / `Emitter.iovalue_str`,
the string escaper `Emitter.escape_string`, the slot allocator
`Emitter.reserve_ucell`, the metadata interner, and the two-pass net binding,
and proves the documented properties about them.
-/

namespace Unnamed

/-! ## Primitive instruction semantics

The target instruction set (`not`, `adc`, `eq`, `mux`, `ult`, `slt`, the
division primitives) is consumed by a downstream tool and is not defined in
this repository; its semantics is modelled from the spec.  Values are `w`-bit
unsigned integers represented as `Nat` reduced mod `2 ^ w`.
-/

/-- Modelled from the spec: the `not` primitive computes the bitwise
complement of a `w`-bit value. -/
def notSem (w a : Nat) : Nat :=
  2 ^ w - 1 - a % 2 ^ w

/-- Modelled from the spec: the `adc` primitive adds two `w`-bit values and a
carry-in bit, producing a `(w+1)`-bit result. -/
def adcSem (w a b c : Nat) : Nat :=
  (a % 2 ^ w + b % 2 ^ w + c % 2) % 2 ^ (w + 1)

/-- Modelled from the spec: the `eq` primitive compares two `w`-bit values and
produces a single bit. -/
def eqSem (w a b : Nat) : Nat :=
  if a % 2 ^ w = b % 2 ^ w then 1 else 0

/-- Modelled from the spec: the `mux` primitive selects its first data operand
when the select bit is set and its second otherwise (as in the `'m'` operator
case of `Emitter.emit`, where `mux(sel, val1, val0)` yields `val1` when `sel`
is 1). -/
def muxSem (s a b : Nat) : Nat :=
  if s % 2 = 1 then a else b

/-- Modelled from the spec: the `ult` primitive, unsigned less-than of two
`w`-bit values. -/
def ultSem (w a b : Nat) : Nat :=
  if a % 2 ^ w < b % 2 ^ w then 1 else 0

/-- Signed (two's complement) interpretation of a `w`-bit value. -/
def sval (w a : Nat) : Int :=
  if a % 2 ^ w < 2 ^ (w - 1) then (a % 2 ^ w : Int) else (a % 2 ^ w : Int) - 2 ^ w

/-- Modelled from the spec: the `slt` primitive, signed less-than of two
`w`-bit values. -/
def sltSem (w a b : Nat) : Nat :=
  if sval w a < sval w b then 1 else 0

/-- Modelled from the spec: the `udiv` primitive on `w`-bit values (its
division-by-zero output is irrelevant here because the emitted `mux` masks
it). -/
def udivSem (w a b : Nat) : Nat :=
  a % 2 ^ w / (b % 2 ^ w)

/-- Modelled from the spec: the `umod` primitive on `w`-bit values. -/
def umodSem (w a b : Nat) : Nat :=
  a % 2 ^ w % (b % 2 ^ w)

/-- Modelled from the spec: the `sdivfloor` primitive, flooring signed
division, truncated to `w` bits. -/
def sdivfloorSem (w a b : Nat) : Nat :=
  (Int.fdiv (sval w a) (sval w b) % (2 ^ w : Int)).toNat

/-- Modelled from the spec: the `smodfloor` primitive, flooring signed
modulus, truncated to `w` bits. -/
def smodfloorSem (w a b : Nat) : Nat :=
  (Int.fmod (sval w a) (sval w b) % (2 ^ w : Int)).toNat

/-! ## Operator lowerings

Each definition transcribes one operator case of `Emitter.emit`
(`src/amaranth/back/unnamed.py`, lines 335-417): which primitives are emitted,
in which operand order, and which bits of the result slot form the cell's
value.
-/

/-- Two-operand subtraction (`'-'` with 2 inputs, lines 359-362): emit
`not(b)`, then `adc(a, not_b, 1)` into a `(w+1)`-bit slot; the cell's value is
the low `w` bits of the `adc` output (lines 226-230). -/
def lowerSub (w a b : Nat) : Nat :=
  adcSem w a (notSem w b) 1 % 2 ^ w

/-- Division/modulus lowering (`'u//'`, `'s//'`, `'u%'`, `'s%'`, lines
380-390): emit `eq(0, b)`, the division primitive on `(a, b)`, and
`mux(eq0, 0, div)`. -/
def lowerDivOp (prim : Nat → Nat → Nat → Nat) (w a b : Nat) : Nat :=
  muxSem (eqSem w 0 b) 0 (prim w a b)

/-- Lowering of `u//`. -/
def lowerUdiv (w a b : Nat) : Nat := lowerDivOp udivSem w a b

/-- Lowering of `s//`. -/
def lowerSdiv (w a b : Nat) : Nat := lowerDivOp sdivfloorSem w a b

/-- Lowering of `u%`. -/
def lowerUmod (w a b : Nat) : Nat := lowerDivOp umodSem w a b

/-- Lowering of `s%`. -/
def lowerSmod (w a b : Nat) : Nat := lowerDivOp smodfloorSem w a b

/-- Lowering of `u>` (lines 363-377): `ult` with operands swapped. -/
def lowerUgt (w a b : Nat) : Nat := ultSem w b a

/-- Lowering of `s>` (lines 363-377): `slt` with operands swapped. -/
def lowerSgt (w a b : Nat) : Nat := sltSem w b a

/-- Lowering of `!=` (lines 399-412): `eq(a, b)` then `not`. -/
def lowerNe (w a b : Nat) : Nat := notSem 1 (eqSem w a b)

/-- Lowering of `u<=` (lines 399-412): `ult(b, a)` then `not`. -/
def lowerUle (w a b : Nat) : Nat := notSem 1 (ultSem w b a)

/-- Lowering of `u>=` (lines 399-412): `ult(a, b)` then `not`. -/
def lowerUge (w a b : Nat) : Nat := notSem 1 (ultSem w a b)

/-- Lowering of `s<=` (lines 399-412): `slt(b, a)` then `not`. -/
def lowerSle (w a b : Nat) : Nat := notSem 1 (sltSem w b a)

/-- Lowering of `s>=` (lines 399-412): `slt(a, b)` then `not`. -/
def lowerSge (w a b : Nat) : Nat := notSem 1 (sltSem w a b)

end Unnamed

namespace Unnamed

/-- Helper: `2 ^ w` is positive. -/
theorem pow2_pos (w : Nat) : 0 < 2 ^ w := Nat.pos_pow_of_pos w (by decide)

/-- C1: for all `w`-bit inputs `a` and `b`, the lowered subtraction sequence —
`not(b)` then `adc(a, not_b, carry=1)` into a `(w+1)`-bit slot, taking the low
`w` bits — evaluates to `(a - b) mod 2^w`. -/
theorem sub_lowering_correct (w a b : Nat) (ha : a < 2 ^ w) (hb : b < 2 ^ w) :
    (lowerSub w a b : Int) = ((a : Int) - (b : Int)) % (2 ^ w : Int) := by
  have hb1 : b ≤ 2 ^ w - 1 := Nat.le_sub_one_of_lt hb
  have hnot : notSem w b = 2 ^ w - 1 - b := by
    unfold notSem
    rw [Nat.mod_eq_of_lt hb]
  have hnotlt : 2 ^ w - 1 - b < 2 ^ w := by
    have := pow2_pos w
    omega
  have hadc : adcSem w a (notSem w b) 1 = a + (2 ^ w - 1 - b) + 1 := by
    unfold adcSem
    rw [hnot, Nat.mod_eq_of_lt ha, Nat.mod_eq_of_lt hnotlt]
    have hlt : a + (2 ^ w - 1 - b) + 1 % 2 < 2 ^ (w + 1) := by
      have h2 : 2 ^ (w + 1) = 2 ^ w + 2 ^ w := by
        rw [Nat.pow_succ]; omega
      have := pow2_pos w
      omega
    rw [Nat.mod_eq_of_lt hlt]
  have hsum : a + (2 ^ w - 1 - b) + 1 = a + (2 ^ w - b) := by
    have := pow2_pos w
    omega
  unfold lowerSub
  rw [hadc, hsum]
  have hcast : ((a + (2 ^ w - b)) % 2 ^ w : Nat) = ((a + (2 ^ w - b) : Nat) : Int) % (2 ^ w : Int) := by
    push_cast
    ring_nf
  have hcast2 : ((a + (2 ^ w - b) : Nat) : Int) = (a : Int) - b + 2 ^ w := by
    have hble : b ≤ 2 ^ w := Nat.le_of_lt hb
    push_cast [Nat.cast_sub hble]
    ring
  calc ((a + (2 ^ w - b)) % 2 ^ w : Nat)
      = ((a + (2 ^ w - b) : Nat) : Int) % (2 ^ w : Int) := by push_cast; ring_nf
    _ = ((a : Int) - b + 2 ^ w) % (2 ^ w : Int) := by rw [hcast2]
    _ = ((a : Int) - b + 2 ^ w * 1) % (2 ^ w : Int) := by ring_nf
    _ = ((a : Int) - b) % (2 ^ w : Int) := by rw [Int.add_mul_emod_self_left]

/-- C1 witness: the subtraction lowering at `w = 4`, `a = 3`, `b = 5`. -/
theorem sub_lowering_correct_witness :
    (3 : Nat) < 2 ^ 4 ∧ (5 : Nat) < 2 ^ 4 ∧
      (lowerSub 4 3 5 : Int) = ((3 : Int) - (5 : Int)) % (2 ^ 4 : Int) :=
  ⟨by decide, by decide, sub_lowering_correct 4 3 5 (by decide) (by decide)⟩

/-- C2: the division/modulus lowering (`eq(0, b)`; division primitive;
`mux(eq0, 0, div)`) evaluates to 0 whenever the `w`-bit divisor is zero, for
all four operators. -/
theorem div_by_zero_yields_zero (w a b : Nat) (hb : b % 2 ^ w = 0) :
    lowerUdiv w a b = 0 ∧ lowerSdiv w a b = 0 ∧
      lowerUmod w a b = 0 ∧ lowerSmod w a b = 0 := by
  have heq : eqSem w 0 b = 1 := by
    unfold eqSem
    rw [Nat.zero_mod, hb]
    simp
  refine ⟨?_, ?_, ?_, ?_⟩ <;>
    simp [lowerUdiv, lowerSdiv, lowerUmod, lowerSmod, lowerDivOp, heq, muxSem]

/-- C2 witness: unsigned and signed division/modulus of `a = 7` by `b = 0` at
width 4 evaluate to 0. -/
theorem div_by_zero_yields_zero_witness :
    (0 : Nat) % 2 ^ 4 = 0 ∧
      (lowerUdiv 4 7 0 = 0 ∧ lowerSdiv 4 7 0 = 0 ∧
        lowerUmod 4 7 0 = 0 ∧ lowerSmod 4 7 0 = 0) :=
  ⟨by decide, div_by_zero_yields_zero 4 7 0 (by decide)⟩

/-- Helper: the 1-bit `not` primitive flips a boolean-valued bit. -/
theorem notSem_bit (p : Prop) [Decidable p] :
    notSem 1 (if p then 1 else 0) = if p then 0 else 1 := by
  rcases Decidable.em p with h | h <;> simp [notSem, h]

/-- C3: each comparison lowering (swapped `ult`/`slt` for `u>`/`s>`, `eq` then
`not` for `!=`, swapped-then-`not` for `u<=`/`s<=`, direct-then-`not` for
`u>=`/`s>=`) has the truth table of the direct comparison of `a` against
`b`. -/
theorem comparison_lowering_correct (w a b : Nat) (ha : a < 2 ^ w) (hb : b < 2 ^ w) :
    lowerUgt w a b = (if a > b then 1 else 0) ∧
    lowerSgt w a b = (if sval w a > sval w b then 1 else 0) ∧
    lowerNe w a b = (if a ≠ b then 1 else 0) ∧
    lowerUle w a b = (if a ≤ b then 1 else 0) ∧
    lowerSle w a b = (if sval w a ≤ sval w b then 1 else 0) ∧
    lowerUge w a b = (if a ≥ b then 1 else 0) ∧
    lowerSge w a b = (if sval w a ≥ sval w b then 1 else 0) := by
  have hma : a % 2 ^ w = a := Nat.mod_eq_of_lt ha
  have hmb : b % 2 ^ w = b := Nat.mod_eq_of_lt hb
  refine ⟨?_, ?_, ?_, ?_, ?_, ?_, ?_⟩
  · unfold lowerUgt
    simp only [ultSem, hma, hmb]
  · unfold lowerSgt
    rfl
  · unfold lowerNe
    simp only [eqSem, hma, hmb, notSem_bit]
    rcases Decidable.em (a = b) with h | h
    · rw [if_pos h, if_neg (by omega)]
    · rw [if_neg h, if_pos h]
  · unfold lowerUle
    simp only [ultSem, hma, hmb, notSem_bit]
    rcases Decidable.em (b < a) with h | h
    · rw [if_pos h, if_neg (by omega)]
    · rw [if_neg h, if_pos (by omega)]
  · unfold lowerSle
    simp only [sltSem, notSem_bit]
    rcases Decidable.em (sval w b < sval w a) with h | h
    · rw [if_pos h, if_neg (by omega)]
    · rw [if_neg h, if_pos (by omega)]
  · unfold lowerUge
    simp only [ultSem, hma, hmb, notSem_bit]
    rcases Decidable.em (a < b) with h | h
    · rw [if_pos h, if_neg (by omega)]
    · rw [if_neg h, if_pos (by omega)]
  · unfold lowerSge
    simp only [sltSem, notSem_bit]
    rcases Decidable.em (sval w a < sval w b) with h | h
    · rw [if_pos h, if_neg (by omega)]
    · rw [if_neg h, if_pos (by omega)]

/-- C3 witness: the comparison lowerings at `w = 3`, `a = 5`, `b = 3`
(signed: `a` reads as −3, `b` as 3). -/
theorem comparison_lowering_correct_witness :
    (5 : Nat) < 2 ^ 3 ∧ (3 : Nat) < 2 ^ 3 ∧
      (lowerUgt 3 5 3 = (if (5 : Nat) > 3 then 1 else 0) ∧
       lowerSgt 3 5 3 = (if sval 3 5 > sval 3 3 then 1 else 0) ∧
       lowerNe 3 5 3 = (if (5 : Nat) ≠ 3 then 1 else 0) ∧
       lowerUle 3 5 3 = (if (5 : Nat) ≤ 3 then 1 else 0) ∧
       lowerSle 3 5 3 = (if sval 3 5 ≤ sval 3 3 then 1 else 0) ∧
       lowerUge 3 5 3 = (if (5 : Nat) ≥ 3 then 1 else 0) ∧
       lowerSge 3 5 3 = (if sval 3 5 ≥ sval 3 3 then 1 else 0)) :=
  ⟨by decide, by decide, comparison_lowering_correct 3 5 3 (by decide) (by decide)⟩

end Unnamed

namespace Unnamed

/-! ## String escaping (`Emitter.escape_string`, lines 46-48)

`escape_string` keeps bytes in the printable range 0x20-0x7e and replaces each
maximal run of other bytes by `\hh` pairs (lowercase hex of the UTF-8 bytes).
Replacing a run byte-by-byte produces the same text, so the byte-level view
below maps each byte independently.
-/

/-- Lowercase hexadecimal digit (as a character code), as produced by Python's
`bytes.hex()`. -/
def hexDigitCode (n : Nat) : Nat :=
  if n < 10 then 48 + n else 87 + n

/-- `Emitter.escape_string` at the level of one byte: a byte in the printable
range 0x20-0x7e is kept, any other byte becomes a backslash followed by its
two lowercase hex digits. -/
def escapeByte (b : Nat) : List Nat :=
  if 0x20 ≤ b ∧ b ≤ 0x7e then [b] else [92, hexDigitCode (b / 16), hexDigitCode (b % 16)]

/-- `Emitter.escape_string` on a byte string: escape every byte and wrap the
result in double quotes (byte 34). -/
def escape_string_bytes (s : List Nat) : List Nat :=
  34 :: s.flatMap escapeByte ++ [34]

/-- Modelled from the spec: value of a lowercase hex digit character code
(the repository contains no unescaper; this is the inverse reading of the
spec's two-hex-digit escape pairs). -/
def hexVal (c : Nat) : Nat :=
  if 48 ≤ c ∧ c ≤ 57 then c - 48 else if 97 ≤ c ∧ c ≤ 102 then c - 87 else 0

/-- Modelled from the spec: unescape the body of an escaped literal — a
backslash introduces a two-hex-digit byte, any other character stands for
itself. -/
def unescapeBody : List Nat → List Nat
  | [] => []
  | c :: rest =>
    if c = 92 then
      match rest with
      | h1 :: h2 :: rest2 => (16 * hexVal h1 + hexVal h2) :: unescapeBody rest2
      | rest1 => unescapeBody rest1
    else
      c :: unescapeBody rest

/-- Modelled from the spec: unescape a full quoted literal by stripping the
surrounding quotes and unescaping the body. -/
def unescape_string_bytes (s : List Nat) : List Nat :=
  unescapeBody (s.drop 1).dropLast

/-- Helper: unescaping past a non-backslash character. -/
theorem unescapeBody_cons_ne (c : Nat) (hc : c ≠ 92) (rest : List Nat) :
    unescapeBody (c :: rest) = c :: unescapeBody rest := by
  rw [unescapeBody.eq_def]
  dsimp only
  rw [if_neg hc]

/-- Helper: unescaping a two-hex-digit escape pair. -/
theorem unescapeBody_escape (h1 h2 : Nat) (rest : List Nat) :
    unescapeBody (92 :: h1 :: h2 :: rest) = (16 * hexVal h1 + hexVal h2) :: unescapeBody rest := by
  rw [unescapeBody.eq_def]
  dsimp only
  rw [if_pos rfl]

/-- Helper: `hexVal` inverts `hexDigitCode` below 16. -/
theorem hexVal_hexDigitCode (n : Nat) (h : n < 16) :
    hexVal (hexDigitCode n) = n := by
  unfold hexVal hexDigitCode
  rcases Decidable.em (n < 10) with h10 | h10
  · rw [if_pos h10, if_pos (by omega)]
    omega
  · rw [if_neg h10, if_neg (by omega), if_pos (by omega)]
    omega

/-- Helper: unescaping inverts byte-wise escaping on backslash-free byte
strings. -/
theorem unescapeBody_bind_escapeByte (s : List Nat)
    (hbyte : ∀ b ∈ s, b < 256) (hnb : ∀ b ∈ s, b ≠ 92) :
    unescapeBody (s.flatMap escapeByte) = s := by
  induction s with
  | nil => rfl
  | cons b t ih =>
    have hb : b < 256 := hbyte b (List.mem_cons_self b t)
    have hbn : b ≠ 92 := hnb b (List.mem_cons_self b t)
    have ht : unescapeBody (t.flatMap escapeByte) = t :=
      ih (fun x hx => hbyte x (List.mem_cons_of_mem b hx))
        (fun x hx => hnb x (List.mem_cons_of_mem b hx))
    rw [List.flatMap_cons]
    rcases Decidable.em (0x20 ≤ b ∧ b ≤ 0x7e) with hpr | hpr
    · rw [escapeByte, if_pos hpr, List.cons_append, List.nil_append,
        unescapeBody_cons_ne b hbn, ht]
    · have hdiv : b / 16 < 16 := by omega
      have hmod : b % 16 < 16 := Nat.mod_lt b (by decide)
      rw [escapeByte, if_neg hpr, List.cons_append, List.cons_append, List.cons_append,
        List.nil_append, unescapeBody_escape, hexVal_hexDigitCode _ hdiv,
        hexVal_hexDigitCode _ hmod, ht]
      congr 1
      omega

/-- C4 counterexample: escaping is not injective, hence no unescaper can
round-trip every byte string.  The printable bytes `\ a b` and the single
byte `0xab` escape to the same quoted literal, and unescaping that literal
yields `[0xab]`, not `[0x5c, 0x61, 0x62]`. -/
theorem escape_roundtrip_counterexample :
    escape_string_bytes [92, 97, 98] = escape_string_bytes [171] ∧
      ([92, 97, 98] : List Nat) ≠ [171] ∧
      unescape_string_bytes (escape_string_bytes [92, 97, 98]) ≠ [92, 97, 98] := by
  refine ⟨by decide, by decide, by decide⟩

/-- C4 (amended): for every byte string containing no backslash byte (0x5c),
unescaping the escaped form reproduces it exactly; and every byte string of
printable ASCII (space through tilde) — backslashes included — escapes to
itself wrapped in double quotes. -/
theorem escape_string_roundtrip (s : List Nat) :
    ((∀ b ∈ s, b < 256) → (∀ b ∈ s, b ≠ 92) →
      unescape_string_bytes (escape_string_bytes s) = s) ∧
    ((∀ b ∈ s, 0x20 ≤ b ∧ b ≤ 0x7e) → escape_string_bytes s = 34 :: s ++ [34]) := by
  constructor
  · intro hbyte hnb
    unfold unescape_string_bytes escape_string_bytes
    rw [List.cons_append, List.drop_one, List.tail_cons, List.dropLast_concat]
    exact unescapeBody_bind_escapeByte s hbyte hnb
  · intro hpr
    unfold escape_string_bytes
    congr 1
    have hself : s.flatMap escapeByte = s := by
      induction s with
      | nil => rfl
      | cons b t ih =>
        rw [List.flatMap_cons]
        have hb := hpr b (List.mem_cons_self b t)
        rw [escapeByte, if_pos hb]
        have ht := ih (fun x hx => hpr x (List.mem_cons_of_mem b hx))
        simp [ht]
    rw [hself]

/-- C4 witness: the amended round-trip at the byte string `n`, NUL, 0xFF, and
the printable self-escape at the byte string backslash, `n` (the backslash
stays literal). -/
theorem escape_string_roundtrip_witness :
    ((∀ b ∈ ([110, 0, 255] : List Nat), b < 256) ∧
      (∀ b ∈ ([110, 0, 255] : List Nat), b ≠ 92) ∧
      unescape_string_bytes (escape_string_bytes [110, 0, 255]) = [110, 0, 255]) ∧
    ((∀ b ∈ ([92, 110] : List Nat), 0x20 ≤ b ∧ b ≤ 0x7e) ∧
      escape_string_bytes [92, 110] = 34 :: [92, 110] ++ [34]) :=
  ⟨⟨by decide, by decide,
      (escape_string_roundtrip [110, 0, 255]).1 (by decide) (by decide)⟩,
    by decide, (escape_string_roundtrip [92, 110]).2 (by decide)⟩

end Unnamed

namespace Unnamed

/-! ## Value rendering (`Emitter.uvalue_str`, lines 76-94, and
`Emitter.iovalue_str`, lines 96-113) -/

/-- `UnnamedNet` (lines 10-24): one resolved operand bit — a literal
(`cell = none`, `bit` is 0 or 1) or bit `bit` of the output of slot
`cell`. -/
structure UnnamedNet where
  cell : Option Nat
  bit : Nat
deriving DecidableEq, Repr

/-- `Emitter.ucell_output` (lines 64-65): the full output range of a slot,
given the recorded slot widths. -/
def ucell_output (width : Nat → Nat) (ucell : Nat) : List UnnamedNet :=
  (List.range (width ucell)).map (fun bit => ⟨some ucell, bit⟩)

/-- The per-bit operand text of the bracketed form (line 91): a literal digit
for a constant, `%cell+bit` for a slot bit. -/
def unetBitStr (u : UnnamedNet) : String :=
  match u.cell with
  | none => toString u.bit
  | some c => "%" ++ toString c ++ "+" ++ toString u.bit

/-- `Emitter.uvalue_str` (lines 76-94): empty value; all-literal digit string
(most-significant first); full slot output `%id` / `%id:width`; single slot
bit `%id+bit`; bracketed per-bit list (most-significant first).  (Python would
print `%None+bit` for a single constant bit, but that branch is unreachable:
the all-literal test catches it.) -/
def uvalue_str (width : Nat → Nat) (uvalue : List UnnamedNet) : String :=
  match uvalue with
  | [] => "[]"
  | u0 :: rest =>
    if (u0 :: rest).all (fun u => u.cell.isNone) then
      String.join ((u0 :: rest).reverse.map (fun u => toString u.bit))
    else
      match u0.cell with
      | some ucell =>
        if u0 :: rest = ucell_output width ucell then
          if (u0 :: rest).length = 1 then "%" ++ toString ucell
          else "%" ++ toString ucell ++ ":" ++ toString (width ucell)
        else if (u0 :: rest).length = 1 then
          "%" ++ toString ucell ++ "+" ++ toString u0.bit
        else
          "[ " ++ String.intercalate " " ((u0 :: rest).reverse.map unetBitStr) ++ " ]"
      | none =>
        if (u0 :: rest).length = 1 then
          "%None+" ++ toString u0.bit
        else
          "[ " ++ String.intercalate " " ((u0 :: rest).reverse.map unetBitStr) ++ " ]"

/-- UTF-8 encoding of a Unicode code point (used by `escape_string` through
Python's `str.encode`). -/
def charUtf8 (n : Nat) : List Nat :=
  if n < 0x80 then [n]
  else if n < 0x800 then [0xc0 + n / 64, 0x80 + n % 64]
  else if n < 0x10000 then [0xe0 + n / 4096, 0x80 + n / 64 % 64, 0x80 + n % 64]
  else [0xf0 + n / 262144, 0x80 + n / 4096 % 64, 0x80 + n / 64 % 64, 0x80 + n % 64]

/-- `Emitter.escape_string` (lines 46-48) on text: printable ASCII characters
stand for themselves, any other character becomes backslash-hex pairs of its
UTF-8 bytes. -/
def escChar (c : Char) : String :=
  if 0x20 ≤ c.toNat ∧ c.toNat ≤ 0x7e then String.singleton c
  else String.join ((charUtf8 c.toNat).map
    (fun b => "\\" ++ String.singleton (Char.ofNat (hexDigitCode (b / 16)))
      ++ String.singleton (Char.ofNat (hexDigitCode (b % 16)))))

/-- `Emitter.escape_string` (lines 46-48): escape every character and wrap in
double quotes. -/
def escape_string (s : String) : String :=
  "\"" ++ String.join (s.data.map escChar) ++ "\""

/-- An IO net (`_nir.IONet`): bit `bit` of IO port `port`. -/
structure IONet where
  port : Nat
  bit : Nat
deriving DecidableEq, Repr

/-- An IO port declaration: its name and bit width. -/
structure IOPort where
  name : String
  width : Nat
deriving Repr

/-- `Emitter.iovalue_str` (lines 96-113): the same four-tier rendering keyed
by port name (a lookup outside the port table, which would raise in Python,
is modelled by a default empty port). -/
def iovalue_str (io_ports : List IOPort) (value : List IONet) : String :=
  match value with
  | [] => "[]"
  | n0 :: rest =>
    let port0 := io_ports.getD n0.port ⟨"", 0⟩
    if port0.width = (n0 :: rest).length ∧
        ((n0 :: rest).enum.all (fun p => decide (p.2.port = n0.port ∧ p.2.bit = p.1))) then
      if (n0 :: rest).length = 1 then "&" ++ escape_string port0.name
      else "&" ++ escape_string port0.name ++ ":" ++ toString (n0 :: rest).length
    else if (n0 :: rest).length = 1 then
      "&" ++ escape_string port0.name ++ "+" ++ toString n0.bit
    else
      "[ " ++ String.intercalate " "
        ((n0 :: rest).reverse.map
          (fun net => "&" ++ escape_string (io_ports.getD net.port ⟨"", 0⟩).name
            ++ "+" ++ toString net.bit)) ++ " ]"

end Unnamed

namespace Unnamed

/-- Helper: shape of a positive-width slot's full output range. -/
theorem ucell_output_cons (width : Nat → Nat) (c k : Nat) (hk : width c = k + 1) :
    ucell_output width c =
      (⟨some c, 0⟩ : UnnamedNet) :: (List.range k).map (fun b => ⟨some c, b + 1⟩) := by
  unfold ucell_output
  rw [hk, List.range_succ_eq_map, List.map_cons, List.map_map]
  rfl

/-- C5 counterexample: the empty bit-vector satisfies the first tier's "all
bits are literals" condition vacuously, yet renders as "[]" rather than as
the (empty) literal digit string the first tier produces. -/
theorem uvalue_str_empty_counterexample :
    ([] : List UnnamedNet).all (fun u => u.cell.isNone) = true ∧
      String.join (([] : List UnnamedNet).reverse.map (fun u => toString u.bit)) = "" ∧
      uvalue_str (fun _ => 0) [] = "[]" ∧ ("[]" : String) ≠ "" :=
  ⟨rfl, rfl, rfl, by decide⟩

/-- C5 (amended): for every nonempty resolved bit-vector, rendering follows
the four-tier priority exactly: all-literal values render as the
most-significant-first digit string; a value equal to a slot's full output
range renders as `%id` / `%id:width`, never bracketed; a remaining single
slot bit renders as `%id+bit`; anything else renders as the bracketed
most-significant-first per-bit list. -/
theorem uvalue_str_four_tiers (width : Nat → Nat) (uvalue : List UnnamedNet)
    (hne : uvalue ≠ []) :
    (uvalue.all (fun u => u.cell.isNone) = true →
      uvalue_str width uvalue = String.join (uvalue.reverse.map (fun u => toString u.bit))) ∧
    (∀ c, uvalue = ucell_output width c →
      uvalue_str width uvalue =
        if width c = 1 then "%" ++ toString c
        else "%" ++ toString c ++ ":" ++ toString (width c)) ∧
    (∀ u c, uvalue = [u] → u.cell = some c → uvalue ≠ ucell_output width c →
      uvalue_str width uvalue = "%" ++ toString c ++ "+" ++ toString u.bit) ∧
    (uvalue.all (fun u => u.cell.isNone) = false →
      (∀ c, uvalue ≠ ucell_output width c) → uvalue.length ≠ 1 →
      uvalue_str width uvalue =
        "[ " ++ String.intercalate " " (uvalue.reverse.map unetBitStr) ++ " ]") := by
  match uvalue, hne with
  | u0 :: rest, _ =>
  refine ⟨?_, ?_, ?_, ?_⟩
  · intro hall
    simp only [uvalue_str, hall, if_true]
  · intro c hc
    have hpos : 0 < width c := by
      by_contra hz
      have hw0 : width c = 0 := by omega
      rw [ucell_output, hw0] at hc
      simp at hc
    obtain ⟨k, hk⟩ : ∃ k, width c = k + 1 := ⟨width c - 1, by omega⟩
    have hsh := ucell_output_cons width c k hk
    rw [hc, hsh]
    simp only [uvalue_str]
    have hall : ((⟨some c, 0⟩ : UnnamedNet) ::
        (List.range k).map (fun b => ⟨some c, b + 1⟩)).all (fun u => u.cell.isNone) = false := by
      simp
    rw [hall]
    simp only [Bool.false_eq_true, if_false]
    rw [if_pos hsh.symm]
    simp only [List.length_cons, List.length_map, List.length_range]
    rcases Nat.eq_zero_or_pos k with hk0 | hk0
    · subst hk0
      rw [if_pos rfl, if_pos (by omega)]
    · rw [if_neg (by omega), if_neg (by omega)]
  · intro u c hu hcell hnout
    rw [hu] at hnout ⊢
    simp only [uvalue_str]
    have hall : ([u] : List UnnamedNet).all (fun x => x.cell.isNone) = false := by
      simp [hcell]
    rw [hall]
    simp only [Bool.false_eq_true, if_false, hcell]
    rw [if_neg hnout]
    simp
  · intro hall hnout hlen
    simp only [uvalue_str]
    rw [hall]
    simp only [Bool.false_eq_true, if_false]
    cases hc0 : u0.cell with
    | some c =>
      dsimp only
      rw [if_neg (hnout c), if_neg hlen]
    | none =>
      dsimp only
      rw [if_neg hlen]

/-- C5 witness: the full output range of a width-2 slot renders as `%0:2`
(the slot-range form, not the bracketed form). -/
theorem uvalue_str_four_tiers_witness :
    ([⟨some 0, 0⟩, ⟨some 0, 1⟩] : List UnnamedNet) ≠ [] ∧
      uvalue_str (fun _ => 2) [⟨some 0, 0⟩, ⟨some 0, 1⟩] =
        (if (2 : Nat) = 1 then "%" ++ toString (0 : Nat)
         else "%" ++ toString (0 : Nat) ++ ":" ++ toString (2 : Nat)) :=
  ⟨by decide,
    (uvalue_str_four_tiers (fun _ => 2) [⟨some 0, 0⟩, ⟨some 0, 1⟩] (by decide)).2.1 0 (by decide)⟩

/-- C10: the empty (zero-bit) value renders as "[]" in both the slot-based
rendering and the IO-port rendering, for every width table and every port
table. -/
theorem empty_value_renders_brackets :
    (∀ width : Nat → Nat, uvalue_str width [] = "[]") ∧
      (∀ io_ports : List IOPort, iovalue_str io_ports [] = "[]") :=
  ⟨fun _ => rfl, fun _ => rfl⟩

end Unnamed

namespace Unnamed

/-! ## Slot allocation (`Emitter.reserve_ucell`, lines 50-54) -/

/-- The slot-allocator state: the monotonic counter `next_ucell` and the
recorded widths `ucell_width` (a map modelled as an association list whose
most recent binding wins). -/
structure AllocState where
  next_ucell : Nat
  ucell_width : List (Nat × Nat)
deriving Repr

/-- The allocator state of a fresh `Emitter` (lines 36-38). -/
def initAlloc : AllocState :=
  { next_ucell := 0, ucell_width := [] }

/-- `Emitter.reserve_ucell` (lines 50-54): return the current counter, record
the width under that id, and advance the counter by `max(width, 1)`. -/
def reserve_ucell (s : AllocState) (width : Nat) : Nat × AllocState :=
  (s.next_ucell,
    { next_ucell := s.next_ucell + max width 1,
      ucell_width := (s.next_ucell, width) :: s.ucell_width })

/-- A sequence of `reserve_ucell` calls, returning the ids in call order and
the final state. -/
def reserveAll (s : AllocState) : List Nat → List Nat × AllocState
  | [] => ([], s)
  | w :: ws =>
    ((reserve_ucell s w).1 :: (reserveAll (reserve_ucell s w).2 ws).1,
      (reserveAll (reserve_ucell s w).2 ws).2)

/-- Helper: full behaviour of a `reserve_ucell` call sequence — counter
growth, id bounds, strict monotonicity of the returned ids, preservation of
widths recorded before the sequence, and the width recorded for each returned
id. -/
theorem reserveAll_spec (ws : List Nat) (s : AllocState) :
    s.next_ucell ≤ (reserveAll s ws).2.next_ucell ∧
    (∀ i ∈ (reserveAll s ws).1, s.next_ucell ≤ i ∧ i < (reserveAll s ws).2.next_ucell) ∧
    (reserveAll s ws).1.Pairwise (· < ·) ∧
    (∀ k, k < s.next_ucell →
      (reserveAll s ws).2.ucell_width.lookup k = s.ucell_width.lookup k) ∧
    (reserveAll s ws).1.length = ws.length ∧
    (∀ k, k < ws.length →
      (reserveAll s ws).2.ucell_width.lookup ((reserveAll s ws).1.getD k 0)
        = some (ws.getD k 0)) := by
  induction ws generalizing s with
  | nil =>
    refine ⟨Nat.le_refl _, ?_, List.Pairwise.nil, fun k _ => rfl, rfl, ?_⟩
    · intro i hi
      simp [reserveAll] at hi
    · intro k hk
      simp at hk
  | cons w ws ih =>
    obtain ⟨ihle, ihmem, ihpw, ihpres, ihlen, ihwidth⟩ := ih (reserve_ucell s w).2
    have hstep : (reserve_ucell s w).2.next_ucell = s.next_ucell + max w 1 := rfl
    have hlt : s.next_ucell < (reserve_ucell s w).2.next_ucell := by
      rw [hstep]; omega
    have hfst : (reserve_ucell s w).1 = s.next_ucell := rfl
    have hwidths : (reserve_ucell s w).2.ucell_width = (s.next_ucell, w) :: s.ucell_width := rfl
    simp only [reserveAll]
    refine ⟨?_, ?_, ?_, ?_, ?_, ?_⟩
    · omega
    · intro i hi
      rcases List.mem_cons.mp hi with h0 | h1
      · rw [h0, hfst]
        exact ⟨Nat.le_refl _, by omega⟩
      · have := ihmem i h1
        constructor <;> omega
    · refine List.Pairwise.cons ?_ ihpw
      intro i hi
      have := ihmem i hi
      rw [hfst]
      omega
    · intro k hk
      rw [ihpres k (by omega), hwidths, List.lookup_cons]
      have hne : (k == s.next_ucell) = false := by
        simp
        omega
      rw [hne]
    · simp [ihlen]
    · intro k hk
      cases k with
      | zero =>
        rw [hfst]
        simp only [List.getD_cons_zero]
        rw [ihpres s.next_ucell (by omega), hwidths, List.lookup_cons]
        simp
      | succ k =>
        simp only [List.getD_cons_succ]
        exact ihwidth k (by simp at hk; omega)

/-- C8: `reserve_ucell` returns the current counter and advances it by
`max(width, 1)`, recording the width under the returned id; over any sequence
of reservations from a fresh emitter the returned ids are strictly increasing
(hence pairwise distinct, even for zero-width slots), and the final width
table still maps each id to the width given at its reservation — widths never
change afterward. -/
theorem reserve_ucell_contract :
    (∀ s w, (reserve_ucell s w).1 = s.next_ucell ∧
      (reserve_ucell s w).2.next_ucell = s.next_ucell + max w 1 ∧
      (reserve_ucell s w).2.ucell_width.lookup s.next_ucell = some w) ∧
    (∀ ws : List Nat, (reserveAll initAlloc ws).1.Pairwise (· < ·)) ∧
    (∀ ws : List Nat, (reserveAll initAlloc ws).1.length = ws.length) ∧
    (∀ ws : List Nat, ∀ k, k < ws.length →
      (reserveAll initAlloc ws).2.ucell_width.lookup ((reserveAll initAlloc ws).1.getD k 0)
        = some (ws.getD k 0)) := by
  refine ⟨?_, ?_, ?_, ?_⟩
  · intro s w
    refine ⟨rfl, rfl, ?_⟩
    show ((s.next_ucell, w) :: s.ucell_width).lookup s.next_ucell = some w
    rw [List.lookup_cons]
    simp
  · intro ws
    exact (reserveAll_spec ws initAlloc).2.2.1
  · intro ws
    exact (reserveAll_spec ws initAlloc).2.2.2.2.1
  · intro ws k hk
    exact (reserveAll_spec ws initAlloc).2.2.2.2.2 k hk

/-- C8 witness: reserving widths 3, 0, 2 from a fresh emitter returns ids
0, 3, 4 with their widths recorded. -/
theorem reserve_ucell_contract_witness :
    ((reserve_ucell initAlloc 3).1 = initAlloc.next_ucell ∧
      (reserve_ucell initAlloc 3).2.next_ucell = initAlloc.next_ucell + max 3 1 ∧
      (reserve_ucell initAlloc 3).2.ucell_width.lookup initAlloc.next_ucell = some 3) ∧
    (reserveAll initAlloc [3, 0, 2]).1.Pairwise (· < ·) ∧
    (reserveAll initAlloc [3, 0, 2]).1.length = ([3, 0, 2] : List Nat).length ∧
    ((1 : Nat) < ([3, 0, 2] : List Nat).length ∧
      (reserveAll initAlloc [3, 0, 2]).2.ucell_width.lookup
          ((reserveAll initAlloc [3, 0, 2]).1.getD 1 0) = some (([3, 0, 2] : List Nat).getD 1 0)) :=
  ⟨reserve_ucell_contract.1 initAlloc 3,
    reserve_ucell_contract.2.1 [3, 0, 2],
    reserve_ucell_contract.2.2.1 [3, 0, 2],
    by decide,
    reserve_ucell_contract.2.2.2 [3, 0, 2] 1 (by decide)⟩

end Unnamed

namespace Unnamed

/-! ## Metadata interning (`Emitter.emit_meta` … `Emitter.emit_attr`,
lines 135-187) -/

/-- A parameter value accepted by `Emitter.param_value` (lines 179-187):
an integer, a fixed-width constant, or a string (any other Python type
raises). -/
inductive PValue
  | int (n : Int)
  | const (value : Nat) (len : Nat)
  | str (s : String)
deriving Repr

/-- A number rendered in binary, zero-padded to `len` digits (Python's
`f"{value:0{len}b}"`). -/
def binStr (value len : Nat) : String :=
  let ds := Nat.toDigits 2 value
  String.mk (List.replicate (len - ds.length) '0' ++ ds)

/-- `Emitter.param_value` (lines 179-187). -/
def param_value : PValue → String
  | .int n => "#" ++ toString n
  | .const v len => binStr v len
  | .str s => escape_string s

/-- The interner state (`Emitter.next_meta` and the four content-keyed
tables, lines 39-44, plus the output lines). -/
structure MetaState where
  next_meta : Nat
  lines : List String
  src_loc_meta : List ((String × Nat) × Nat)
  set_meta : List (List Nat × Nat)
  ident_meta : List ((String × Nat) × Nat)
  attr_meta : List ((String × String) × Nat)

/-- `Emitter.emit_meta` (lines 135-140): allocate a fresh metadata index and
append its record line. -/
def emit_meta (s : MetaState) (text : String) : Nat × MetaState :=
  (s.next_meta,
    { s with
        next_meta := s.next_meta + 1,
        lines := s.lines ++ ["!" ++ toString s.next_meta ++ " = " ++ text] })

/-- The record text of a `source` metadata record (line 148). -/
def srcLocText (loc : String × Nat) : String :=
  "source " ++ escape_string loc.1 ++ " (#" ++ toString (loc.2 - 1) ++ " #0) (#"
    ++ toString (loc.2 - 1) ++ " #0)"

/-- `Emitter.emit_src_loc` (lines 142-150) for a present source location:
look up the content-keyed table, emitting and recording a new record only on
a miss. -/
def emit_src_loc (s : MetaState) (loc : String × Nat) : Nat × MetaState :=
  match s.src_loc_meta.lookup loc with
  | some i => (i, s)
  | none =>
    ((emit_meta s (srcLocText loc)).1,
      { (emit_meta s (srcLocText loc)).2 with
          src_loc_meta := (loc, (emit_meta s (srcLocText loc)).1)
            :: (emit_meta s (srcLocText loc)).2.src_loc_meta })

/-- `Emitter.emit_ident` (lines 152-157). -/
def emit_ident (s : MetaState) (ident : String) (scope : Nat) : Nat × MetaState :=
  match s.ident_meta.lookup (ident, scope) with
  | some i => (i, s)
  | none =>
    ((emit_meta s ("ident " ++ escape_string ident ++ " in=!" ++ toString scope)).1,
      { (emit_meta s ("ident " ++ escape_string ident ++ " in=!" ++ toString scope)).2 with
          ident_meta := ((ident, scope),
              (emit_meta s ("ident " ++ escape_string ident ++ " in=!" ++ toString scope)).1)
            :: (emit_meta s ("ident " ++ escape_string ident ++ " in=!" ++ toString scope)).2.ident_meta })

/-- The record text of a merged metadata set (line 167). -/
def metaSetText (key : List Nat) : String :=
  "\x7b " ++ String.intercalate " " (key.map (fun i => "!" ++ toString i)) ++ " \x7d"

/-- `Emitter.emit_meta_set` (lines 159-169): a single id passes through
unchanged; otherwise the sorted id list is looked up / created as a merged-set
record. -/
def emit_meta_set (s : MetaState) (meta : List Nat) : Nat × MetaState :=
  if meta.length = 1 then (meta.headD 0, s)
  else
    match s.set_meta.lookup (List.insertionSort (· ≤ ·) meta) with
    | some i => (i, s)
    | none =>
      ((emit_meta s (metaSetText (List.insertionSort (· ≤ ·) meta))).1,
        { (emit_meta s (metaSetText (List.insertionSort (· ≤ ·) meta))).2 with
            set_meta := (List.insertionSort (· ≤ ·) meta,
                (emit_meta s (metaSetText (List.insertionSort (· ≤ ·) meta))).1)
              :: (emit_meta s (metaSetText (List.insertionSort (· ≤ ·) meta))).2.set_meta })

/-- `Emitter.emit_attr` (lines 171-177), keyed on the name and the rendered
parameter value. -/
def emit_attr (s : MetaState) (name : String) (value : PValue) : Nat × MetaState :=
  match s.attr_meta.lookup (name, param_value value) with
  | some i => (i, s)
  | none =>
    ((emit_meta s ("attr " ++ escape_string name ++ " " ++ param_value value)).1,
      { (emit_meta s ("attr " ++ escape_string name ++ " " ++ param_value value)).2 with
          attr_meta := ((name, param_value value),
              (emit_meta s ("attr " ++ escape_string name ++ " " ++ param_value value)).1)
            :: (emit_meta s ("attr " ++ escape_string name ++ " " ++ param_value value)).2.attr_meta })

/-- A cell's per-instruction metadata (lines 329-332): the module scope id,
merged with the interned source location when present. -/
def cell_meta (s : MetaState) (module_meta : Nat) (src_loc : Option (String × Nat)) :
    Nat × MetaState :=
  match src_loc with
  | none => emit_meta_set s [module_meta]
  | some loc =>
    emit_meta_set (emit_src_loc s loc).2 [module_meta, (emit_src_loc s loc).1]

end Unnamed

namespace Unnamed

/-- The interner state of a fresh `Emitter` (lines 39-44). -/
def initMeta : MetaState :=
  { next_meta := 0, lines := [], src_loc_meta := [], set_meta := [],
    ident_meta := [], attr_meta := [] }

/-- C9: metadata interning is content-addressed and idempotent — re-interning
a source location, identifier or attribute with identical content returns the
same id and leaves the state (hence the table sizes) unchanged; merging a
single id returns it with no merged-set record; re-merging any permutation of
an already-merged id list returns the same merged id and leaves the state
unchanged; a cell with no source location receives its module scope id itself
(so two cells with equal scope and no source location share one id). -/
theorem metadata_interning_idempotent :
    (∀ s loc, emit_src_loc (emit_src_loc s loc).2 loc = emit_src_loc s loc) ∧
    (∀ s ident scope, emit_ident (emit_ident s ident scope).2 ident scope
      = emit_ident s ident scope) ∧
    (∀ s name v, emit_attr (emit_attr s name v).2 name v = emit_attr s name v) ∧
    (∀ s i, emit_meta_set s [i] = (i, s)) ∧
    (∀ s l l', l.Perm l' →
      emit_meta_set (emit_meta_set s l).2 l'
        = ((emit_meta_set s l).1, (emit_meta_set s l).2)) ∧
    (∀ s m, cell_meta s m none = (m, s)) := by
  refine ⟨?_, ?_, ?_, ?_, ?_, ?_⟩
  · intro s loc
    cases h : s.src_loc_meta.lookup loc with
    | some i => simp [emit_src_loc, h]
    | none => simp [emit_src_loc, h, emit_meta, List.lookup_cons]
  · intro s ident scope
    cases h : s.ident_meta.lookup (ident, scope) with
    | some i => simp [emit_ident, h]
    | none => simp [emit_ident, h, emit_meta, List.lookup_cons]
  · intro s name v
    cases h : s.attr_meta.lookup (name, param_value v) with
    | some i => simp [emit_attr, h]
    | none => simp [emit_attr, h, emit_meta, List.lookup_cons]
  · intro s i
    simp [emit_meta_set]
  · intro s l l' hperm
    by_cases h1 : l.length = 1
    · obtain ⟨a, ha⟩ := List.length_eq_one.mp h1
      subst ha
      have hl' : l' = [a] := List.perm_singleton.mp hperm.symm
      subst hl'
      simp [emit_meta_set]
    · have h1' : ¬l'.length = 1 := by
        rw [← hperm.length_eq]
        exact h1
      have hkey : List.insertionSort (· ≤ ·) l' = List.insertionSort (· ≤ ·) l :=
        List.eq_of_perm_of_sorted (r := (· ≤ ·))
          ((List.perm_insertionSort _ l').trans
            (hperm.symm.trans (List.perm_insertionSort _ l).symm))
          (List.sorted_insertionSort _ l')
          (List.sorted_insertionSort _ l)
      cases h : s.set_meta.lookup (List.insertionSort (· ≤ ·) l) with
      | some i =>
        simp [emit_meta_set, h1, h1', hkey, h]
      | none =>
        simp [emit_meta_set, h1, h1', hkey, h, emit_meta, List.lookup_cons]
  · intro s m
    simp [cell_meta, emit_meta_set]

/-- C9 witness: merging `[5, 3]` from a fresh interner and then re-merging the
permutation `[3, 5]` returns the same merged id with the state unchanged. -/
theorem metadata_interning_idempotent_witness :
    ([5, 3] : List Nat).Perm [3, 5] ∧
      emit_meta_set (emit_meta_set initMeta [5, 3]).2 [3, 5]
        = ((emit_meta_set initMeta [5, 3]).1, (emit_meta_set initMeta [5, 3]).2) :=
  ⟨by decide, metadata_interning_idempotent.2.2.2.2.1 initMeta [5, 3] [3, 5] (by decide)⟩

end Unnamed

namespace Unnamed

/-! ## Memory read-port relation tags (`Emitter.emit`, lines 473-507) -/

/-- The fields of a synchronous write port used by relation classification
(`_nir.SyncWritePort`): clock net (abstracted to an id) and clock-edge
polarity (`true` = positive edge). -/
structure SWritePort where
  clk : Nat
  clk_edge : Bool
deriving DecidableEq, Repr

/-- The fields of a synchronous read port used by relation classification
(`_nir.SyncReadPort`): clock net, clock-edge polarity, and the cell indices of
the write ports it is transparent with. -/
structure SReadPort where
  clk : Nat
  clk_edge : Bool
  transparent_for : List Nat
deriving DecidableEq, Repr

/-- One port cell of a memory. -/
inductive MemPort
  | write (p : SWritePort)
  | readSync (p : SReadPort)
  | readAsync
deriving DecidableEq, Repr

/-- The synchronous write ports of a memory in declaration order, with their
cell indices (lines 473-477: one pass over the memory's port list keeping
only `SyncWritePort`s). -/
def write_ports (ports : List (Nat × MemPort)) : List (Nat × SWritePort) :=
  ports.filterMap (fun p =>
    match p.2 with
    | .write w => some (p.1, w)
    | _ => none)

/-- The relation tag list of a synchronous read port (lines 497-506): one tag
per collected write port, `trans` if the write port's index is listed in
`transparent_for`, else `rdfirst` if its clock net and edge equal the read
port's, else `undef`. -/
def read_relations (ports : List (Nat × MemPort)) (r : SReadPort) : List String :=
  (write_ports ports).map (fun wp =>
    if wp.1 ∈ r.transparent_for then "trans"
    else if wp.2.clk = r.clk ∧ wp.2.clk_edge = r.clk_edge then "rdfirst"
    else "undef")

/-- Default entry used for out-of-range indexing in statements. -/
def defaultWP : Nat × SWritePort := (0, ⟨0, true⟩)

/-- Helper: indexing a mapped list inside its bounds. -/
theorem getD_map_of_lt (f : α → β) (l : List α) (k : Nat) (d : α) (e : β)
    (h : k < l.length) :
    (l.map f).getD k e = f (l.getD k d) := by
  simp [List.getD_eq_getElem?_getD, List.getElem?_map, List.getElem?_eq_getElem h]

/-- C6: the emitted relation tag list of a synchronous read port has exactly
one entry per synchronous write port of the memory, in declaration order, and
each tag follows the transparent > read-first > undefined precedence: `trans`
if the read port lists the write port in `transparent_for`, else `rdfirst` if
the write port's clock net and edge polarity both equal the read port's, else
`undef`. -/
theorem memory_relation_tags (ports : List (Nat × MemPort)) (r : SReadPort) :
    (read_relations ports r).length = (write_ports ports).length ∧
    (∀ k, k < (write_ports ports).length →
      (read_relations ports r).getD k "" =
        (if ((write_ports ports).getD k defaultWP).1 ∈ r.transparent_for then "trans"
         else if ((write_ports ports).getD k defaultWP).2.clk = r.clk ∧
             ((write_ports ports).getD k defaultWP).2.clk_edge = r.clk_edge then "rdfirst"
         else "undef")) := by
  constructor
  · simp [read_relations]
  · intro k hk
    unfold read_relations
    rw [getD_map_of_lt _ _ k defaultWP _ hk]

/-- Example memory port list: a transparent write port, an interleaved async
read port, a same-clock-same-edge write port, and an opposite-edge write
port. -/
def memPortsEx : List (Nat × MemPort) :=
  [(1, .write ⟨7, true⟩), (2, .readAsync), (3, .write ⟨7, true⟩), (4, .write ⟨7, false⟩)]

/-- Example synchronous read port: positive edge on clock net 7, transparent
with write port 1. -/
def readPortEx : SReadPort := ⟨7, true, [1]⟩

/-- C6 witness: the tag of the first write port of the example memory,
computed through the classification theorem. -/
theorem memory_relation_tags_witness :
    (0 : Nat) < (write_ports memPortsEx).length ∧
      (read_relations memPortsEx readPortEx).getD 0 "" =
        (if ((write_ports memPortsEx).getD 0 defaultWP).1 ∈ readPortEx.transparent_for then "trans"
         else if ((write_ports memPortsEx).getD 0 defaultWP).2.clk = readPortEx.clk ∧
             ((write_ports memPortsEx).getD 0 defaultWP).2.clk_edge = readPortEx.clk_edge then "rdfirst"
         else "undef") :=
  ⟨by decide, (memory_relation_tags memPortsEx readPortEx).2 0 (by decide)⟩

end Unnamed

namespace Unnamed

/-! ## Two-pass net binding (`Emitter.emit`, lines 189-325)

The reservation pass walks the cell list once, reserving slot ids for every
cell's full output and binding every output net to a resolved operand, before
any instruction text referencing those nets is produced.
-/

/-- `_nir.Net`: a single-bit net — a constant, or bit `b` of cell `c`'s
output. -/
inductive NNet
  | const (b : Bool)
  | cell (c : Nat) (b : Nat)
deriving DecidableEq, Repr

/-- One conditional assignment of an `AssignmentList` cell. -/
structure Assign where
  cond : List NNet
  value : List NNet
  start : Nat
deriving DecidableEq, Repr

/-- The netlist cell kinds handled by the reservation pass (lines 217-325).
`dflt` is the `default` field of `AssignmentList`; `portLen` abstracts
`len(cell.port)` of an `IOBuffer` (an IO value, not made of nets). -/
inductive Cell
  | top
  | operator (op : String) (inputs : List (List NNet)) (width : Nat)
  | part (value : List NNet) (value_signed : Bool) (offset stride width : Nat)
  | matchC (value en : List NNet) (patterns : List (List String))
  | assignmentList (dflt : List NNet) (assignments : List Assign)
  | flipFlop (data : List NNet) (clk : NNet) (clk_edge : Bool) (arst : NNet) (init : Nat)
  | memory (depth width : Nat) (init : List Nat)
  | syncWritePort (memory : Nat) (addr data en : List NNet) (clk : NNet) (clk_edge : Bool)
  | syncReadPort (memory width : Nat) (addr : List NNet) (en clk : NNet)
      (clk_edge : Bool) (transparent_for : List Nat)
  | asyncReadPort (memory width : Nat) (addr : List NNet)
  | instanceC (ports_i : List (String × List NNet)) (ports_o : List (String × Nat × Nat))
  | ioBuffer (portLen : Nat) (o : List NNet) (oe : NNet)
deriving DecidableEq, Repr

/-- The input netlist: the cell list, the top module's input port ranges
(`netlist.top.ports_i` as `(start, width)` pairs) and output port values
(`netlist.top.ports_o`). -/
structure Netlist where
  cells : List Cell
  ports_i : List (Nat × Nat)
  ports_o : List (List NNet)
deriving Repr

/-- The mutable state threaded through the reservation pass: the slot
allocator and the net-to-operand map (`Emitter.net_map`). -/
structure EmitState where
  alloc : AllocState
  net_map : List (NNet × UnnamedNet)

/-- The output nets `Net.from_cell(i, 0) … Net.from_cell(i, w-1)`. -/
def cellNets (i w : Nat) : List NNet :=
  (List.range w).map (fun b => NNet.cell i b)

/-- The output nets `Net.from_cell(i, start) … Net.from_cell(i, start+w-1)`. -/
def cellNetsFrom (i start w : Nat) : List NNet :=
  (List.range w).map (fun b => NNet.cell i (start + b))

/-- The recorded width of a slot (`self.ucell_width[ucell]`). -/
def allocWidth (a : AllocState) (u : Nat) : Nat :=
  (a.ucell_width.lookup u).getD 0

/-- `Emitter.ucell_output` against the allocator's recorded widths. -/
def ucell_outputA (a : AllocState) (u : Nat) : List UnnamedNet :=
  ucell_output (allocWidth a) u

/-- `Emitter.assign_nets` (lines 56-62): bind each net of `value` to the
corresponding operand of `uvalue` (the source asserts the lengths match). -/
def assign_nets (m : List (NNet × UnnamedNet)) (value : List NNet)
    (uvalue : List UnnamedNet) : List (NNet × UnnamedNet) :=
  value.zip uvalue ++ m

/-- `Emitter.uzero` (lines 67-68). -/
def uzeroU (w : Nat) : List UnnamedNet :=
  List.replicate w ⟨none, 0⟩

/-- Whether a cell is a memory port of memory cell `m` (lines 211-214). -/
def isPortOf (c : Cell) (m : Nat) : Bool :=
  match c with
  | .syncWritePort mem _ _ _ _ _ => mem == m
  | .syncReadPort mem _ _ _ _ _ _ => mem == m
  | .asyncReadPort mem _ _ => mem == m
  | _ => false

/-- The cell list with indices attached, starting at `i`. -/
def enumFrom (i : Nat) : List Cell → List (Nat × Cell)
  | [] => []
  | c :: rest => (i, c) :: enumFrom (i + 1) rest

/-- `Emitter.memory_ports` for one memory: its ports in declaration order. -/
def memory_ports (cells : List Cell) (m : Nat) : List (Nat × Cell) :=
  (enumFrom 0 cells).filter (fun p => isPortOf p.2 m)

/-- The data width of a read port (`none` for write ports). -/
def readPortWidth : Cell → Option Nat
  | .syncReadPort _ w _ _ _ _ _ => some w
  | .asyncReadPort _ w _ => some w
  | _ => none

/-- The read ports of a memory with their indices and widths, in declaration
order (lines 293-306). -/
def readPorts (cells : List Cell) (m : Nat) : List (Nat × Nat) :=
  (memory_ports cells m).filterMap (fun p => (readPortWidth p.2).map (fun w => (p.1, w)))

/-- The memory-cell binding loop (lines 300-306): bind each read port's data
nets to the next `width`-bit slice of the memory's aggregate output. -/
def bindReadPorts (out : List UnnamedNet) :
    List (Nat × Nat) → Nat → List (NNet × UnnamedNet) → List (NNet × UnnamedNet)
  | [], _, m => m
  | (idx, w) :: rest, offset, m =>
    bindReadPorts out rest (offset + w) (assign_nets m (cellNets idx w) ((out.drop offset).take w))

/-- The instance output-port loop (lines 310-316): reserve one slot per
output-port range and bind its nets. -/
def reserveInstancePorts (i : Nat) : List (String × Nat × Nat) → EmitState → EmitState
  | [], st => st
  | (_, start, w) :: rest, st =>
    reserveInstancePorts i rest
      { alloc := (reserve_ucell st.alloc w).2,
        net_map := assign_nets st.net_map (cellNetsFrom i start w)
          (ucell_outputA (reserve_ucell st.alloc w).2 (reserve_ucell st.alloc w).1) }

/-- One step of the reservation pass (lines 217-325): reserve the slot(s) of
cell `c` at index `i` and bind its output nets.  The final catch-all returns
the state unchanged where the source asserts or raises (unsupported cells),
which well-formed inputs exclude. -/
def reserveCell (cells : List Cell) (st : EmitState) (i : Nat) (c : Cell) : EmitState :=
  match c with
  | .top => st
  | .operator op inputs width =>
    if op = "~" ∧ inputs.length = 1 then
      { alloc := (reserve_ucell st.alloc width).2,
        net_map := assign_nets st.net_map (cellNets i width)
          (ucell_outputA (reserve_ucell st.alloc width).2 (reserve_ucell st.alloc width).1) }
    else if op = "-" ∧ (inputs.length = 1 ∨ inputs.length = 2) then
      { alloc := (reserve_ucell (reserve_ucell st.alloc width).2 (width + 1)).2,
        net_map := assign_nets st.net_map (cellNets i width)
          ((ucell_outputA (reserve_ucell (reserve_ucell st.alloc width).2 (width + 1)).2
            (reserve_ucell (reserve_ucell st.alloc width).2 (width + 1)).1).take width) }
    else if (op = "b" ∨ op = "r|") ∧ inputs.length = 1 then
      { alloc := (reserve_ucell (reserve_ucell st.alloc 1).2 1).2,
        net_map := assign_nets st.net_map (cellNets i width)
          (ucell_outputA (reserve_ucell (reserve_ucell st.alloc 1).2 1).2
            (reserve_ucell (reserve_ucell st.alloc 1).2 1).1) }
    else if op = "r&" ∧ inputs.length = 1 then
      { alloc := (reserve_ucell st.alloc 1).2,
        net_map := assign_nets st.net_map (cellNets i width)
          (ucell_outputA (reserve_ucell st.alloc 1).2 (reserve_ucell st.alloc 1).1) }
    else if op = "r^" ∧ inputs.length = 1 then
      if (reserveAll st.alloc (List.replicate (inputs.headD []).length 1)).1 = [] then
        { alloc := (reserveAll st.alloc (List.replicate (inputs.headD []).length 1)).2,
          net_map := assign_nets st.net_map (cellNets i width) (uzeroU 1) }
      else
        { alloc := (reserveAll st.alloc (List.replicate (inputs.headD []).length 1)).2,
          net_map := assign_nets st.net_map (cellNets i width)
            (ucell_outputA (reserveAll st.alloc (List.replicate (inputs.headD []).length 1)).2
              ((reserveAll st.alloc (List.replicate (inputs.headD []).length 1)).1.getLastD 0)) }
    else if op = "+" ∧ inputs.length = 2 then
      { alloc := (reserve_ucell st.alloc (width + 1)).2,
        net_map := assign_nets st.net_map (cellNets i width)
          ((ucell_outputA (reserve_ucell st.alloc (width + 1)).2
            (reserve_ucell st.alloc (width + 1)).1).take width) }
    else if (op = "*" ∨ op = "&" ∨ op = "^" ∨ op = "|" ∨ op = "<<" ∨ op = "u>>" ∨
        op = "s>>" ∨ op = "==" ∨ op = "u<" ∨ op = "u>" ∨ op = "s<" ∨ op = "s>") ∧
        inputs.length = 2 then
      { alloc := (reserve_ucell st.alloc width).2,
        net_map := assign_nets st.net_map (cellNets i width)
          (ucell_outputA (reserve_ucell st.alloc width).2 (reserve_ucell st.alloc width).1) }
    else if (op = "u//" ∨ op = "s//" ∨ op = "u%" ∨ op = "s%") ∧ inputs.length = 2 then
      { alloc := (reserve_ucell (reserve_ucell (reserve_ucell st.alloc 1).2 width).2 width).2,
        net_map := assign_nets st.net_map (cellNets i width)
          (ucell_outputA (reserve_ucell (reserve_ucell (reserve_ucell st.alloc 1).2 width).2 width).2
            (reserve_ucell (reserve_ucell (reserve_ucell st.alloc 1).2 width).2 width).1) }
    else if (op = "!=" ∨ op = "u<=" ∨ op = "u>=" ∨ op = "s<=" ∨ op = "s>=") ∧
        inputs.length = 2 then
      { alloc := (reserve_ucell (reserve_ucell st.alloc 1).2 1).2,
        net_map := assign_nets st.net_map (cellNets i width)
          (ucell_outputA (reserve_ucell (reserve_ucell st.alloc 1).2 1).2
            (reserve_ucell (reserve_ucell st.alloc 1).2 1).1) }
    else if op = "m" ∧ inputs.length = 3 then
      { alloc := (reserve_ucell st.alloc width).2,
        net_map := assign_nets st.net_map (cellNets i width)
          (ucell_outputA (reserve_ucell st.alloc width).2 (reserve_ucell st.alloc width).1) }
    else
      st
  | .part value _ _ _ width =>
    { alloc := (reserve_ucell st.alloc (max width value.length)).2,
      net_map := assign_nets st.net_map (cellNets i width)
        ((ucell_outputA (reserve_ucell st.alloc (max width value.length)).2
          (reserve_ucell st.alloc (max width value.length)).1).take width) }
  | .matchC _ _ patterns =>
    { alloc := (reserve_ucell st.alloc patterns.length).2,
      net_map := assign_nets st.net_map (cellNets i patterns.length)
        (ucell_outputA (reserve_ucell st.alloc patterns.length).2
          (reserve_ucell st.alloc patterns.length).1) }
  | .assignmentList dflt assignments =>
    if (reserveAll st.alloc (List.replicate (max 1 assignments.length) dflt.length)).1 = [] then
      { alloc := (reserveAll st.alloc (List.replicate (max 1 assignments.length) dflt.length)).2,
        net_map := st.net_map }
    else
      { alloc := (reserveAll st.alloc (List.replicate (max 1 assignments.length) dflt.length)).2,
        net_map := assign_nets st.net_map (cellNets i dflt.length)
          (ucell_outputA (reserveAll st.alloc (List.replicate (max 1 assignments.length) dflt.length)).2
            ((reserveAll st.alloc (List.replicate (max 1 assignments.length) dflt.length)).1.getLastD 0)) }
  | .flipFlop data _ _ _ _ =>
    { alloc := (reserve_ucell st.alloc data.length).2,
      net_map := assign_nets st.net_map (cellNets i data.length)
        (ucell_outputA (reserve_ucell st.alloc data.length).2
          (reserve_ucell st.alloc data.length).1) }
  | .memory _ _ _ =>
    { alloc := (reserve_ucell st.alloc (((readPorts cells i).map (fun p => p.2)).sum)).2,
      net_map := bindReadPorts
        (ucell_outputA (reserve_ucell st.alloc (((readPorts cells i).map (fun p => p.2)).sum)).2
          (reserve_ucell st.alloc (((readPorts cells i).map (fun p => p.2)).sum)).1)
        (readPorts cells i) 0 st.net_map }
  | .syncWritePort _ _ _ _ _ _ => st
  | .syncReadPort _ _ _ _ _ _ _ => st
  | .asyncReadPort _ _ _ => st
  | .instanceC _ ports_o =>
    if ports_o = [] then
      { alloc := (reserve_ucell st.alloc 0).2, net_map := st.net_map }
    else
      reserveInstancePorts i ports_o st
  | .ioBuffer portLen o _ =>
    { alloc := (reserve_ucell st.alloc o.length).2,
      net_map := assign_nets st.net_map (cellNets i portLen)
        (ucell_outputA (reserve_ucell st.alloc o.length).2 (reserve_ucell st.alloc o.length).1) }

/-- The two pre-bound constant nets (lines 31-34). -/
def initNetMap : List (NNet × UnnamedNet) :=
  [(NNet.const false, ⟨none, 0⟩), (NNet.const true, ⟨none, 1⟩)]

/-- The input-port loop (lines 204-209): reserve a slot per top input port
and bind the corresponding cell-0 nets. -/
def reserveInputs : List (Nat × Nat) → EmitState → EmitState
  | [], st => st
  | (start, w) :: rest, st =>
    reserveInputs rest
      { alloc := (reserve_ucell st.alloc w).2,
        net_map := assign_nets st.net_map (cellNetsFrom 0 start w)
          (ucell_outputA (reserve_ucell st.alloc w).2 (reserve_ucell st.alloc w).1) }

/-- The reservation pass over the cell list, carrying the running index. -/
def reserveCells (cells : List Cell) (st : EmitState) (i : Nat) : List Cell → EmitState
  | [] => st
  | c :: rest => reserveCells cells (reserveCell cells st i c) (i + 1) rest

/-- The whole pre-pass: constants, inputs (lines 204-209), then the cell
reservation loop (lines 217-325). -/
def reservePass (nl : Netlist) : EmitState :=
  reserveCells nl.cells (reserveInputs nl.ports_i ⟨initAlloc, initNetMap⟩) 0 nl.cells

end Unnamed

namespace Unnamed

/-- The nets the emission pass resolves for one cell (lines 327-534): operator
inputs, part values, match value and enable, assignment defaults, conditions
and values, flip-flop data, clock and reset, memory port operands, instance
input ports, and IO-buffer driver and enable. -/
def cellRefNets : Cell → List NNet
  | .top => []
  | .operator _ inputs _ => inputs.flatten
  | .part value _ _ _ _ => value
  | .matchC value en _ => value ++ en
  | .assignmentList dflt assignments =>
    dflt ++ assignments.flatMap (fun a => a.cond ++ a.value)
  | .flipFlop data clk _ arst _ => data ++ [clk, arst]
  | .memory _ _ _ => []
  | .syncWritePort _ addr data en clk _ => addr ++ data ++ en ++ [clk]
  | .syncReadPort _ _ addr en clk _ _ => addr ++ [en, clk]
  | .asyncReadPort _ _ addr => addr
  | .instanceC ports_i _ => ports_i.flatMap (fun p => p.2)
  | .ioBuffer _ o oe => o ++ [oe]

/-- Every net any emitted instruction resolves: all cell operands plus the top
module's output values (lines 536-538). -/
def referencedNets (nl : Netlist) : List NNet :=
  nl.cells.flatMap cellRefNets ++ nl.ports_o.flatten

/-- The output nets of the cell at index `i` — the nets the rest of the
netlist may use to refer to this cell's outputs (§3 of the data model). -/
def cellOutputNets (i : Nat) : Cell → List NNet
  | .top => []
  | .operator _ _ width => cellNets i width
  | .part _ _ _ _ width => cellNets i width
  | .matchC _ _ patterns => cellNets i patterns.length
  | .assignmentList dflt _ => cellNets i dflt.length
  | .flipFlop data _ _ _ _ => cellNets i data.length
  | .memory _ _ _ => []
  | .syncWritePort _ _ _ _ _ _ => []
  | .syncReadPort _ w _ _ _ _ _ => cellNets i w
  | .asyncReadPort _ w _ => cellNets i w
  | .instanceC _ ports_o => ports_o.flatMap (fun p => cellNetsFrom i p.2.1 p.2.2)
  | .ioBuffer portLen _ _ => cellNets i portLen

/-- The cell-0 nets bound by the top input-port loop. -/
def inputNets (ports_i : List (Nat × Nat)) : List NNet :=
  ports_i.flatMap (fun p => cellNetsFrom 0 p.1 p.2)

/-- Whether a cell is a memory. -/
def isMemory : Cell → Bool
  | .memory _ _ _ => true
  | _ => false

/-- Per-cell well-formedness guaranteed by the front end: operator kind and
arity are supported, with the result width the lowering's tail slot carries
where the source asserts it (boolean/reduction and negated comparisons are
1-bit); an `IOBuffer`'s port and driver widths agree; memory ports point at
memory cells. -/
def supportedCell (cells : List Cell) : Cell → Prop
  | .operator op inputs width =>
    (op = "~" ∧ inputs.length = 1) ∨
    (op = "-" ∧ (inputs.length = 1 ∨ inputs.length = 2)) ∨
    ((op = "b" ∨ op = "r|") ∧ inputs.length = 1 ∧ width = 1) ∨
    (op = "r&" ∧ inputs.length = 1 ∧ width = 1) ∨
    (op = "r^" ∧ inputs.length = 1 ∧ width = 1) ∨
    (op = "+" ∧ inputs.length = 2) ∨
    ((op = "*" ∨ op = "&" ∨ op = "^" ∨ op = "|" ∨ op = "<<" ∨ op = "u>>" ∨ op = "s>>" ∨
      op = "==" ∨ op = "u<" ∨ op = "u>" ∨ op = "s<" ∨ op = "s>") ∧ inputs.length = 2) ∨
    ((op = "u//" ∨ op = "s//" ∨ op = "u%" ∨ op = "s%") ∧ inputs.length = 2) ∨
    ((op = "!=" ∨ op = "u<=" ∨ op = "u>=" ∨ op = "s<=" ∨ op = "s>=") ∧
      inputs.length = 2 ∧ width = 1) ∨
    (op = "m" ∧ inputs.length = 3)
  | .ioBuffer portLen o _ => portLen = o.length
  | .syncReadPort mem _ _ _ _ _ _ => mem < cells.length ∧ isMemory (cells.getD mem .top) = true
  | .asyncReadPort mem _ _ => mem < cells.length ∧ isMemory (cells.getD mem .top) = true
  | _ => True

/-- A valid net reference: a constant, a top input net, or an output net of a
cell in range. -/
def okNet (nl : Netlist) : NNet → Prop
  | .const _ => True
  | .cell j b => NNet.cell j b ∈ inputNets nl.ports_i ∨
      (j < nl.cells.length ∧ NNet.cell j b ∈ cellOutputNets j (nl.cells.getD j .top))

/-- A well-formed input netlist: every cell is supported and every referenced
net is valid (§7 makes everything else a fatal error). -/
def WellFormed (nl : Netlist) : Prop :=
  (∀ c ∈ nl.cells, supportedCell nl.cells c) ∧
  (∀ n ∈ referencedNets nl, okNet nl n)

/-- The nets one reservation step binds: a memory cell binds its read ports'
data nets; memory ports themselves bind nothing (their memory does); any
other cell binds its own output nets. -/
def stepBinds (cells : List Cell) (i : Nat) : Cell → List NNet
  | .memory _ _ _ => (readPorts cells i).flatMap (fun p => cellNets p.1 p.2)
  | .syncReadPort _ _ _ _ _ _ _ => []
  | .asyncReadPort _ _ _ => []
  | c => cellOutputNets i c

end Unnamed

namespace Unnamed

/-- Helper: `assign_nets` keeps every existing binding. -/
theorem mem_keys_assign_left (m : List (NNet × UnnamedNet)) (value : List NNet)
    (uvalue : List UnnamedNet) (n : NNet) (h : n ∈ m.map Prod.fst) :
    n ∈ (assign_nets m value uvalue).map Prod.fst := by
  simp only [assign_nets, List.map_append, List.mem_append]
  exact Or.inr h

/-- Helper: `assign_nets` binds all of `value` when the operand list is long
enough. -/
theorem mem_keys_assign_covered (m : List (NNet × UnnamedNet)) (value : List NNet)
    (uvalue : List UnnamedNet) (hlen : value.length ≤ uvalue.length)
    (n : NNet) (h : n ∈ value) :
    n ∈ (assign_nets m value uvalue).map Prod.fst := by
  simp only [assign_nets, List.map_append, List.mem_append]
  left
  rw [List.map_fst_zip value uvalue hlen]
  exact h

/-- Helper: `cellNets` has the requested length. -/
theorem cellNets_length (i w : Nat) : (cellNets i w).length = w := by
  simp [cellNets]

/-- Helper: `cellNetsFrom` has the requested length. -/
theorem cellNetsFrom_length (i s w : Nat) : (cellNetsFrom i s w).length = w := by
  simp [cellNetsFrom]

/-- Helper: a freshly reserved slot records the requested width. -/
theorem allocWidth_reserve (a : AllocState) (w : Nat) :
    allocWidth (reserve_ucell a w).2 (reserve_ucell a w).1 = w := by
  simp [allocWidth, reserve_ucell, List.lookup_cons]

/-- Helper: a slot's rendered output range has its recorded width. -/
theorem length_ucell_outputA (a : AllocState) (u : Nat) :
    (ucell_outputA a u).length = allocWidth a u := by
  simp [ucell_outputA, ucell_output]

/-- Helper: indexing into a replicated list. -/
theorem getD_replicate_of_lt (k w n : Nat) (hk : k < n) :
    (List.replicate n w).getD k 0 = w := by
  rw [List.getD_eq_getElem?_getD, List.getElem?_replicate, if_pos hk]
  rfl

/-- Helper: the last element as an index access. -/
theorem getLastD_eq_getD (l : List Nat) (d : Nat) :
    l.getLastD d = l.getD (l.length - 1) d := by
  rw [List.getLastD_eq_getLast?, List.getLast?_eq_getElem?, List.getD_eq_getElem?_getD]

/-- Helper: after reserving `k` equal-width slots, the last returned id
records that width. -/
theorem allocWidth_reserveAll_replicate_last (a : AllocState) (k w : Nat) (hk : 0 < k) :
    allocWidth (reserveAll a (List.replicate k w)).2
      ((reserveAll a (List.replicate k w)).1.getLastD 0) = w := by
  obtain ⟨-, -, -, -, hlen, hwidth⟩ := reserveAll_spec (List.replicate k w) a
  have hlen' : (reserveAll a (List.replicate k w)).1.length = k := by
    simpa using hlen
  have hwk := hwidth (k - 1) (by simpa using Nat.sub_lt hk Nat.one_pos)
  rw [getLastD_eq_getD, hlen']
  unfold allocWidth
  rw [hwk, Option.getD_some, getD_replicate_of_lt (k - 1) w k (by omega)]

/-- Helper: the memory binding loop keeps every existing binding. -/
theorem bindReadPorts_mono (out : List UnnamedNet) (prs : List (Nat × Nat)) (offset : Nat)
    (m : List (NNet × UnnamedNet)) (n : NNet) (h : n ∈ m.map Prod.fst) :
    n ∈ (bindReadPorts out prs offset m).map Prod.fst := by
  induction prs generalizing offset m with
  | nil => exact h
  | cons p rest ih =>
    obtain ⟨idx, w⟩ := p
    exact ih _ _ (mem_keys_assign_left _ _ _ _ h)

/-- Helper: the instance port loop keeps every existing binding. -/
theorem reserveInstancePorts_mono (i : Nat) (ports : List (String × Nat × Nat))
    (st : EmitState) (n : NNet) (h : n ∈ st.net_map.map Prod.fst) :
    n ∈ (reserveInstancePorts i ports st).net_map.map Prod.fst := by
  induction ports generalizing st with
  | nil => exact h
  | cons p rest ih =>
    obtain ⟨nm, start, w⟩ := p
    exact ih _ (mem_keys_assign_left _ _ _ _ h)

set_option maxHeartbeats 1600000 in
/-- Helper: one reservation step keeps every existing binding. -/
theorem reserveCell_mono (cells : List Cell) (st : EmitState) (i : Nat) (c : Cell)
    (n : NNet) (h : n ∈ st.net_map.map Prod.fst) :
    n ∈ (reserveCell cells st i c).net_map.map Prod.fst := by
  cases c with
  | top => exact h
  | operator op inputs width =>
    simp only [reserveCell]
    split_ifs <;>
      first
        | exact mem_keys_assign_left _ _ _ _ h
        | exact h
  | part value sg o strd w => exact mem_keys_assign_left _ _ _ _ h
  | matchC v en pats => exact mem_keys_assign_left _ _ _ _ h
  | assignmentList dflt assigns =>
    simp only [reserveCell]
    split_ifs
    · exact h
    · exact mem_keys_assign_left _ _ _ _ h
  | flipFlop data clk ce arst ini => exact mem_keys_assign_left _ _ _ _ h
  | memory d w ini => exact bindReadPorts_mono _ _ _ _ _ h
  | syncWritePort mem addr data en clk ce => exact h
  | syncReadPort mem w addr en clk ce tf => exact h
  | asyncReadPort mem w addr => exact h
  | instanceC pi po =>
    simp only [reserveCell]
    split_ifs
    · exact h
    · exact reserveInstancePorts_mono _ _ _ _ h
  | ioBuffer pl o oe => exact mem_keys_assign_left _ _ _ _ h

/-- Helper: the memory binding loop binds every listed read port's nets when
the aggregate output is wide enough. -/
theorem bindReadPorts_covers (out : List UnnamedNet) (prs : List (Nat × Nat)) (offset : Nat)
    (m : List (NNet × UnnamedNet))
    (hlen : offset + (prs.map (fun p => p.2)).sum ≤ out.length)
    (n : NNet) (h : n ∈ prs.flatMap (fun p => cellNets p.1 p.2)) :
    n ∈ (bindReadPorts out prs offset m).map Prod.fst := by
  induction prs generalizing offset m with
  | nil => simp at h
  | cons p rest ih =>
    obtain ⟨idx, w⟩ := p
    simp only [List.flatMap_cons, List.mem_append] at h
    simp only [List.map_cons, List.sum_cons] at hlen
    rcases h with h1 | h2
    · exact bindReadPorts_mono out rest (offset + w) _ n
        (mem_keys_assign_covered _ _ _
          (by rw [cellNets_length]; simp only [List.length_take, List.length_drop]; omega)
          n h1)
    · exact ih (offset + w) _ (by omega) h2

/-- Helper: the instance port loop binds every output-port range. -/
theorem reserveInstancePorts_covers (i : Nat) (ports : List (String × Nat × Nat))
    (st : EmitState) (n : NNet)
    (h : n ∈ ports.flatMap (fun p => cellNetsFrom i p.2.1 p.2.2)) :
    n ∈ (reserveInstancePorts i ports st).net_map.map Prod.fst := by
  induction ports generalizing st with
  | nil => simp at h
  | cons p rest ih =>
    obtain ⟨nm, start, w⟩ := p
    simp only [List.flatMap_cons, List.mem_append] at h
    rcases h with h1 | h2
    · exact reserveInstancePorts_mono i rest _ n
        (mem_keys_assign_covered _ _ _
          (by simp [cellNetsFrom_length, length_ucell_outputA, allocWidth_reserve]) n h1)
    · exact ih _ h2

end Unnamed

namespace Unnamed

/-- Helper: one reservation step binds all the nets `stepBinds` lists for it,
for any supported cell. -/
theorem reserveCell_binds (cells : List Cell) (st : EmitState) (i : Nat) (c : Cell)
    (hc : supportedCell cells c) (n : NNet) (h : n ∈ stepBinds cells i c) :
    n ∈ (reserveCell cells st i c).net_map.map Prod.fst := by
  cases c with
  | top => simp [stepBinds, cellOutputNets] at h
  | syncWritePort mem addr data en clk ce => simp [stepBinds, cellOutputNets] at h
  | syncReadPort mem w addr en clk ce tf => simp [stepBinds] at h
  | asyncReadPort mem w addr => simp [stepBinds] at h
  | part value sg o strd w =>
    simp only [stepBinds, cellOutputNets] at h
    exact mem_keys_assign_covered _ _ _
      (by simp [cellNets_length, List.length_take, length_ucell_outputA, allocWidth_reserve]) n h
  | matchC v en pats =>
    simp only [stepBinds, cellOutputNets] at h
    exact mem_keys_assign_covered _ _ _
      (by simp [cellNets_length, length_ucell_outputA, allocWidth_reserve]) n h
  | flipFlop data clk ce arst ini =>
    simp only [stepBinds, cellOutputNets] at h
    exact mem_keys_assign_covered _ _ _
      (by simp [cellNets_length, length_ucell_outputA, allocWidth_reserve]) n h
  | ioBuffer pl o oe =>
    simp only [stepBinds, cellOutputNets] at h
    simp only [supportedCell] at hc
    exact mem_keys_assign_covered _ _ _
      (by simp [cellNets_length, length_ucell_outputA, allocWidth_reserve, hc]) n h
  | memory d w ini =>
    simp only [stepBinds] at h
    exact bindReadPorts_covers _ _ 0 _
      (by simp [length_ucell_outputA, allocWidth_reserve]) n h
  | instanceC pi po =>
    simp only [stepBinds, cellOutputNets] at h
    simp only [reserveCell]
    by_cases hpo : po = []
    · subst hpo
      simp at h
    · rw [if_neg hpo]
      exact reserveInstancePorts_covers _ _ _ n h
  | assignmentList dflt assigns =>
    simp only [stepBinds, cellOutputNets] at h
    simp only [reserveCell]
    obtain ⟨-, -, -, -, hlen5, -⟩ :=
      reserveAll_spec (List.replicate (max 1 assigns.length) dflt.length) st.alloc
    have hids : ¬(reserveAll st.alloc
        (List.replicate (max 1 assigns.length) dflt.length)).1 = [] := by
      intro hz
      rw [hz] at hlen5
      simp at hlen5
      omega
    rw [if_neg hids]
    refine mem_keys_assign_covered _ _ _ ?_ n h
    rw [cellNets_length, length_ucell_outputA,
      allocWidth_reserveAll_replicate_last _ _ _ (show 0 < max 1 assigns.length by omega)]
  | operator op inputs width =>
    simp only [stepBinds, cellOutputNets] at h
    rcases hc with ⟨rfl, hl⟩ | ⟨rfl, hl⟩ | ⟨hop, hl, rfl⟩ | ⟨rfl, hl, rfl⟩ | ⟨rfl, hl, rfl⟩ |
      ⟨rfl, hl⟩ | ⟨hop, hl⟩ | ⟨hop, hl⟩ | ⟨hop, hl, rfl⟩ | ⟨rfl, hl⟩
    · -- "~"
      simp only [reserveCell, hl, reduceIte]
      exact mem_keys_assign_covered _ _ _
        (by simp [cellNets_length, length_ucell_outputA, allocWidth_reserve]) n h
    · -- "-"
      rcases hl with hl | hl <;>
        · simp only [reserveCell, hl, reduceIte]
          exact mem_keys_assign_covered _ _ _
            (by simp [cellNets_length, List.length_take, length_ucell_outputA,
                  allocWidth_reserve]) n h
    · -- "b" / "r|"
      rcases hop with rfl | rfl <;>
        · simp only [reserveCell, hl, reduceIte]
          exact mem_keys_assign_covered _ _ _
            (by simp [cellNets_length, length_ucell_outputA, allocWidth_reserve]) n h
    · -- "r&"
      simp only [reserveCell, hl, reduceIte]
      exact mem_keys_assign_covered _ _ _
        (by simp [cellNets_length, length_ucell_outputA, allocWidth_reserve]) n h
    · -- "r^"
      simp only [reserveCell, hl, reduceIte]
      by_cases hids : (reserveAll st.alloc (List.replicate (inputs.headD []).length 1)).1 = []
      · rw [if_pos hids]
        exact mem_keys_assign_covered _ _ _ (by simp [cellNets_length, uzeroU]) n h
      · rw [if_neg hids]
        have hk : 0 < (inputs.headD []).length := by
          obtain ⟨-, -, -, -, hlen5, -⟩ :=
            reserveAll_spec (List.replicate (inputs.headD []).length 1) st.alloc
          by_contra hz
          apply hids
          apply List.length_eq_zero.mp
          rw [hlen5, List.length_replicate]
          omega
        refine mem_keys_assign_covered _ _ _ ?_ n h
        rw [cellNets_length, length_ucell_outputA,
          allocWidth_reserveAll_replicate_last _ _ _ hk]
    · -- "+"
      simp only [reserveCell, hl, reduceIte]
      exact mem_keys_assign_covered _ _ _
        (by simp [cellNets_length, List.length_take, length_ucell_outputA,
              allocWidth_reserve]) n h
    · -- "*" … "s>"
      rcases hop with rfl | rfl | rfl | rfl | rfl | rfl | rfl | rfl | rfl | rfl | rfl | rfl <;>
        · simp only [reserveCell, hl, reduceIte]
          exact mem_keys_assign_covered _ _ _
            (by simp [cellNets_length, length_ucell_outputA, allocWidth_reserve]) n h
    · -- "u//" … "s%"
      rcases hop with rfl | rfl | rfl | rfl <;>
        · simp only [reserveCell, hl, reduceIte]
          exact mem_keys_assign_covered _ _ _
            (by simp [cellNets_length, length_ucell_outputA, allocWidth_reserve]) n h
    · -- "!=" … "s>="
      rcases hop with rfl | rfl | rfl | rfl | rfl <;>
        · simp only [reserveCell, hl, reduceIte]
          exact mem_keys_assign_covered _ _ _
            (by simp [cellNets_length, length_ucell_outputA, allocWidth_reserve]) n h
    · -- "m"
      simp only [reserveCell, hl, reduceIte]
      exact mem_keys_assign_covered _ _ _
        (by simp [cellNets_length, length_ucell_outputA, allocWidth_reserve]) n h

end Unnamed

namespace Unnamed

/-- Helper: the input loop keeps every existing binding. -/
theorem reserveInputs_mono (ports : List (Nat × Nat)) (st : EmitState) (n : NNet)
    (h : n ∈ st.net_map.map Prod.fst) :
    n ∈ (reserveInputs ports st).net_map.map Prod.fst := by
  induction ports generalizing st with
  | nil => exact h
  | cons p rest ih =>
    obtain ⟨start, w⟩ := p
    exact ih _ (mem_keys_assign_left _ _ _ _ h)

/-- Helper: the input loop binds every top input net. -/
theorem reserveInputs_covers (ports : List (Nat × Nat)) (st : EmitState) (n : NNet)
    (h : n ∈ inputNets ports) :
    n ∈ (reserveInputs ports st).net_map.map Prod.fst := by
  induction ports generalizing st with
  | nil => simp [inputNets] at h
  | cons p rest ih =>
    obtain ⟨start, w⟩ := p
    simp only [inputNets, List.flatMap_cons, List.mem_append] at h
    rcases h with h1 | h2
    · exact reserveInputs_mono rest _ n
        (mem_keys_assign_covered _ _ _
          (by simp [cellNetsFrom_length, length_ucell_outputA, allocWidth_reserve]) n h1)
    · exact ih _ h2

/-- Helper: the cell loop keeps every existing binding. -/
theorem reserveCells_mono (cells : List Cell) (st : EmitState) (i : Nat) (suffix : List Cell)
    (n : NNet) (h : n ∈ st.net_map.map Prod.fst) :
    n ∈ (reserveCells cells st i suffix).net_map.map Prod.fst := by
  induction suffix generalizing st i with
  | nil => exact h
  | cons c rest ih => exact ih _ _ (reserveCell_mono cells st i c n h)

/-- Helper: the cell loop binds what any of its steps binds. -/
theorem reserveCells_binds (cells : List Cell) (st : EmitState) (i : Nat) (suffix : List Cell)
    (hsup : ∀ c ∈ suffix, supportedCell cells c)
    (n : NNet) (k : Nat) (hk : k < suffix.length)
    (h : n ∈ stepBinds cells (i + k) (suffix.getD k .top)) :
    n ∈ (reserveCells cells st i suffix).net_map.map Prod.fst := by
  induction suffix generalizing st i k with
  | nil => simp at hk
  | cons c rest ih =>
    cases k with
    | zero =>
      have h0 : n ∈ (reserveCell cells st i c).net_map.map Prod.fst := by
        apply reserveCell_binds cells st i c (hsup c (List.mem_cons_self c rest)) n
        simpa using h
      exact reserveCells_mono cells _ (i + 1) rest n h0
    | succ k =>
      have harith : i + (k + 1) = (i + 1) + k := by omega
      rw [harith, List.getD_cons_succ] at h
      exact ih (reserveCell cells st i c) (i + 1)
        (fun x hx => hsup x (List.mem_cons_of_mem c hx)) k (by simpa using hk) h

/-- Helper: indexed membership in `enumFrom`. -/
theorem mem_enumFrom (cells : List Cell) (i j : Nat) (hj : j < cells.length) :
    (i + j, cells.getD j .top) ∈ enumFrom i cells := by
  induction cells generalizing i j with
  | nil => simp at hj
  | cons c rest ih =>
    cases j with
    | zero => simp [enumFrom]
    | succ j =>
      have hmem := ih (i + 1) j (by simpa using hj)
      have harith : i + (j + 1) = (i + 1) + j := by omega
      rw [List.getD_cons_succ, harith]
      exact List.mem_cons_of_mem _ hmem

/-- Helper: an in-range `getD` access is a member. -/
theorem getD_mem_of_lt (l : List Cell) (j : Nat) (hj : j < l.length) :
    l.getD j .top ∈ l := by
  rw [List.getD_eq_getElem?_getD, List.getElem?_eq_getElem hj]
  simp

/-- Helper: for any cell that is not a read port, its declared output nets are
among the nets its own reservation step binds. -/
theorem mem_stepBinds_of_outputs (cells : List Cell) (j : Nat) (c : Cell)
    (hnr : readPortWidth c = none) (n : NNet) (h : n ∈ cellOutputNets j c) :
    n ∈ stepBinds cells j c := by
  cases c with
  | syncReadPort mem w addr en clk ce tf => simp [readPortWidth] at hnr
  | asyncReadPort mem w addr => simp [readPortWidth] at hnr
  | memory d w ini => simp [cellOutputNets] at h
  | top => exact h
  | operator op inputs width => exact h
  | part value sg o strd w => exact h
  | matchC v en pats => exact h
  | assignmentList dflt assigns => exact h
  | flipFlop data clk ce arst ini => exact h
  | syncWritePort mem addr data en clk ce => exact h
  | instanceC pi po => exact h
  | ioBuffer pl o oe => exact h

end Unnamed

namespace Unnamed

instance instDecidableSupportedCell (cells : List Cell) (c : Cell) :
    Decidable (supportedCell cells c) := by
  cases c <;> simp only [supportedCell] <;> infer_instance

instance instDecidableOkNet (nl : Netlist) (n : NNet) : Decidable (okNet nl n) := by
  cases n <;> simp only [okNet] <;> infer_instance

instance instDecidableWellFormed (nl : Netlist) : Decidable (WellFormed nl) := by
  unfold WellFormed
  infer_instance

/-- C7: for any well-formed netlist, the reservation pre-pass (which reserves
slot ids for every cell's full output and binds every output net before the
instruction-emission pass begins) leaves every net referenced by any emitted
instruction — including cyclic references such as a flip-flop's output feeding
its own next-state input — resolvable: the unresolved-net fatal path of
`Emitter.value` is unreachable. -/
theorem two_pass_net_resolution (nl : Netlist) (hwf : WellFormed nl) :
    ∀ n ∈ referencedNets nl, ((reservePass nl).net_map.lookup n).isSome = true := by
  obtain ⟨hsup, hok⟩ := hwf
  intro n hn
  have hkey : n ∈ (reservePass nl).net_map.map Prod.fst := by
    have hokn := hok n hn
    cases n with
    | const b =>
      have h0 : NNet.const b ∈ initNetMap.map Prod.fst := by
        cases b <;> simp [initNetMap]
      unfold reservePass
      exact reserveCells_mono _ _ 0 _ _ (reserveInputs_mono nl.ports_i _ _ h0)
    | cell j bb =>
      simp only [okNet] at hokn
      rcases hokn with hin | ⟨hj, hout⟩
      · unfold reservePass
        exact reserveCells_mono _ _ 0 _ _ (reserveInputs_covers nl.ports_i _ _ hin)
      · cases hrw : readPortWidth (nl.cells.getD j .top) with
        | none =>
          unfold reservePass
          refine reserveCells_binds nl.cells _ 0 nl.cells hsup _ j hj ?_
          rw [Nat.zero_add]
          exact mem_stepBinds_of_outputs nl.cells j _ hrw _ hout
        | some w =>
          have hshape : (∃ mem wr addr en clk ce tf,
                nl.cells.getD j .top = Cell.syncReadPort mem wr addr en clk ce tf) ∨
              (∃ mem wr addr, nl.cells.getD j .top = Cell.asyncReadPort mem wr addr) := by
            cases hcell2 : nl.cells.getD j .top <;> rw [hcell2] at hrw <;>
              simp [readPortWidth] at hrw
            · left
              exact ⟨_, _, _, _, _, _, _, rfl⟩
            · right
              exact ⟨_, _, _, rfl⟩
          have hsupj := hsup _ (getD_mem_of_lt nl.cells j hj)
          rcases hshape with ⟨mem, wr, addr, en, clk, ce, tf, hcell⟩ | ⟨mem, wr, addr, hcell⟩
          · rw [hcell] at hout hsupj
            simp only [cellOutputNets] at hout
            simp only [supportedCell] at hsupj
            obtain ⟨hmlt, hmem⟩ := hsupj
            obtain ⟨d, wm, ini, hmc⟩ : ∃ d wm ini,
                nl.cells.getD mem .top = Cell.memory d wm ini := by
              cases hmc2 : nl.cells.getD mem .top <;> rw [hmc2] at hmem <;>
                simp [isMemory] at hmem
              exact ⟨_, _, _, rfl⟩
            unfold reservePass
            refine reserveCells_binds nl.cells _ 0 nl.cells hsup _ mem hmlt ?_
            rw [Nat.zero_add, hmc]
            simp only [stepBinds]
            rw [List.mem_flatMap]
            refine ⟨(j, wr), ?_, hout⟩
            simp only [readPorts, List.mem_filterMap]
            refine ⟨(j, nl.cells.getD j .top), ?_, ?_⟩
            · simp only [memory_ports, List.mem_filter]
              refine ⟨?_, ?_⟩
              · simpa using mem_enumFrom nl.cells 0 j hj
              · rw [hcell]
                simp [isPortOf]
            · rw [hcell]
              simp [readPortWidth]
          · rw [hcell] at hout hsupj
            simp only [cellOutputNets] at hout
            simp only [supportedCell] at hsupj
            obtain ⟨hmlt, hmem⟩ := hsupj
            obtain ⟨d, wm, ini, hmc⟩ : ∃ d wm ini,
                nl.cells.getD mem .top = Cell.memory d wm ini := by
              cases hmc2 : nl.cells.getD mem .top <;> rw [hmc2] at hmem <;>
                simp [isMemory] at hmem
              exact ⟨_, _, _, rfl⟩
            unfold reservePass
            refine reserveCells_binds nl.cells _ 0 nl.cells hsup _ mem hmlt ?_
            rw [Nat.zero_add, hmc]
            simp only [stepBinds]
            rw [List.mem_flatMap]
            refine ⟨(j, wr), ?_, hout⟩
            simp only [readPorts, List.mem_filterMap]
            refine ⟨(j, nl.cells.getD j .top), ?_, ?_⟩
            · simp only [memory_ports, List.mem_filter]
              refine ⟨?_, ?_⟩
              · simpa using mem_enumFrom nl.cells 0 j hj
              · rw [hcell]
                simp [isPortOf]
            · rw [hcell]
              simp [readPortWidth]
  rw [List.lookup_isSome_iff]
  obtain ⟨p, hp, hpe⟩ := List.mem_map.mp hkey
  refine ⟨p, hp, ?_⟩
  rw [hpe]
  simp

/-- A two-cell netlist with a flip-flop whose output net feeds its own data
input (a feedback cycle), clocked by the single top input bit. -/
def ffLoopNetlist : Netlist :=
  { cells := [Cell.top,
      Cell.flipFlop [NNet.cell 1 0] (NNet.cell 0 0) true (NNet.const false) 0],
    ports_i := [(0, 1)],
    ports_o := [[NNet.cell 1 0]] }

/-- C7 witness: the flip-flop feedback netlist is well formed, references the
flip-flop's own output, and that net resolves after the reservation
pre-pass. -/
theorem two_pass_net_resolution_witness :
    WellFormed ffLoopNetlist ∧ NNet.cell 1 0 ∈ referencedNets ffLoopNetlist ∧
      ((reservePass ffLoopNetlist).net_map.lookup (NNet.cell 1 0)).isSome = true :=
  ⟨by decide, by decide,
    two_pass_net_resolution ffLoopNetlist (by decide) (NNet.cell 1 0) (by decide)⟩

end Unnamed
